import Mathlib

/-!
# Verification of the opendap-protocol server encoder

A shallow embedding of the core of `opendap_protocol/protocol.py`: the
constraint matcher `meets_constraint`, the slice-constraint parser
(`parse_slice_constraint` / `parse_slice`), the XDR encoder `dods_encode`,
the platform-type lookup `DAPAtom.type_from_np`, and the tree attributes
`indent` / `data_path` together with the `Grid` and `Attribute` emitters.

Python strings are modelled as `List Char` (with `String` wrappers using
`String.data` where convenient); byte strings as `List Nat` whose entries
are the byte values; generators as the `List` of their yielded chunks;
functions that may raise as `Except`-valued; `None` results as `Option`.
-/

set_option maxRecDepth 4000

/-- Python `str.split(sep)` for a one-character separator: `''.split(sep)`
is `['']`, and every occurrence of the separator ends a field. -/
def pySplit (sep : Char) : List Char → List (List Char)
  | [] => [[]]
  | c :: rest =>
    if c = sep then [] :: pySplit sep rest
    else
      match pySplit sep rest with
      | [] => [[c]]
      | s :: ss => (c :: s) :: ss

/-- `meets_constraint(constraint_expr, data_path)` from `protocol.py`:
empty constraint matches everything; otherwise the expression is split on
commas and each projection is tested with `constr.startswith(data_path)`
on the raw projection text. -/
def meets_constraint (constraint_expr data_path : String) : Bool :=
  if constraint_expr = "" then true
  else (pySplit ',' constraint_expr.data).any (fun constr => data_path.data.isPrefixOf constr)

/-- Modelled from the spec's wording of the matcher: as `meets_constraint`,
but each projection is first cut down to its segment portion, everything
before the first `[`, and the raw-prefix test is applied to that portion. -/
def meets_constraint_spec (constraint_expr data_path : String) : Bool :=
  if constraint_expr = "" then true
  else (pySplit ',' constraint_expr.data).any
    (fun constr => data_path.data.isPrefixOf (constr.takeWhile (fun c => c ≠ '[')))

theorem any_congr_fun {α : Type} (f g : α → Bool) (l : List α) (h : ∀ x, f x = g x) :
    l.any f = l.any g := by
  induction l with
  | nil => rfl
  | cons a l ih => simp [List.any, h a, ih]

theorem prefix_takeWhile_of_all {q : Char → Bool} :
    ∀ (p c : List Char), p <+: c → (∀ x ∈ p, q x = true) → p <+: c.takeWhile q
  | [], _, _, _ => List.nil_prefix
  | a :: p, c, hpre, hall => by
    cases c with
    | nil => exact absurd hpre (by simp)
    | cons b c =>
      rcases List.cons_prefix_cons.mp hpre with ⟨rfl, hp⟩
      have hq : q a = true := hall a (List.mem_cons_self a p)
      rw [List.takeWhile_cons, if_pos hq]
      exact List.cons_prefix_cons.mpr
        ⟨rfl, prefix_takeWhile_of_all p c hp (fun x hx => hall x (List.mem_cons_of_mem a hx))⟩

theorem isPrefixOf_takeWhile_not_lbracket (p c : List Char) (hp : '[' ∉ p) :
    p.isPrefixOf (c.takeWhile (fun ch => ch ≠ '[')) = p.isPrefixOf c := by
  rw [Bool.eq_iff_iff, List.isPrefixOf_iff_prefix, List.isPrefixOf_iff_prefix]
  constructor
  · exact fun h => h.trans (List.takeWhile_prefix _)
  · intro h
    refine prefix_takeWhile_of_all p c h (fun x hx => ?_)
    have hxne : x ≠ '[' := fun he => hp (he ▸ hx)
    simp [hxne]

/-- **C1** (counterexample). The claim as stated fails on the code in two
concrete places: `meets_constraint("xy.z", "x")` is `true` because the raw
projection text `"xy.z"` does start with `"x"` (the claim asserts `false`);
and for a path containing `[` the code matches the full projection text
rather than its segment portion, so at `expr = "z[0]"`, `path = "z["` the
code returns `true` while the claimed segment-portion criterion is not met. -/
theorem meets_constraint_claim_counterexample :
    meets_constraint "xy.z" "x" = true
    ∧ meets_constraint "z[0]" "z[" = true
    ∧ meets_constraint_spec "z[0]" "z[" = false := by
  decide

/-- **C1** (amended). `meets_constraint(expr, p)` returns `true` iff `expr`
is empty or at least one comma-separated projection has `p` as a raw-string
prefix of its full text; when `p` contains no `[` this coincides with the
segment-portion criterion of the claim. In particular the empty constraint
matches every path, `("test.object.path", "test")` and
`("test.object.path", "test.object")` match, and `("xy.z", "x")` matches
as well (raw prefix, contrary to the claim's example). -/
theorem meets_constraint_characterization :
    (∀ expr path : String,
      (meets_constraint expr path = true ↔
        expr = "" ∨ ∃ constr ∈ pySplit ',' expr.data, path.data <+: constr))
    ∧ (∀ expr path : String, '[' ∉ path.data →
        meets_constraint expr path = meets_constraint_spec expr path)
    ∧ (∀ path : String, meets_constraint "" path = true)
    ∧ meets_constraint "test.object.path" "test" = true
    ∧ meets_constraint "test.object.path" "test.object" = true
    ∧ meets_constraint "xy.z" "x" = true := by
  refine ⟨?_, ?_, ?_, by decide, by decide, by decide⟩
  · intro expr path
    by_cases he : expr = ""
    · simp [meets_constraint, he]
    · simp only [meets_constraint, if_neg he, List.any_eq_true]
      constructor
      · rintro ⟨constr, hmem, hpre⟩
        exact Or.inr ⟨constr, hmem, List.isPrefixOf_iff_prefix.mp hpre⟩
      · rintro (h | ⟨constr, hmem, hpre⟩)
        · exact absurd h he
        · exact ⟨constr, hmem, List.isPrefixOf_iff_prefix.mpr hpre⟩
  · intro expr path hp
    by_cases he : expr = ""
    · simp [meets_constraint, meets_constraint_spec, he]
    · simp only [meets_constraint, meets_constraint_spec, if_neg he]
      exact (any_congr_fun _ _ _
        (fun c => isPrefixOf_takeWhile_not_lbracket path.data c hp)).symm
  · intro path
    simp [meets_constraint]

/-- **C1** (witness). The amended theorem applied at a concrete instance:
path `"b"` contains no `[`, and on `expr = "a,b"` the code result agrees
with the segment-portion criterion. -/
theorem meets_constraint_characterization_witness :
    meets_constraint "a,b" "b" = meets_constraint_spec "a,b" "b" :=
  meets_constraint_characterization.2.1 "a,b" "b" (by decide)

/-- Big-endian 4-byte representation of `n % 2^32`, as produced by
`length.astype('<i4').byteswap().tobytes()` in `dods_encode`. -/
def be32 (n : Nat) : List Nat :=
  [n / 2 ^ 24 % 256, n / 2 ^ 16 % 256, n / 2 ^ 8 % 256, n % 256]

/-- `np.prod` of a shape tuple (`np.prod(()) = 1`). -/
def prodList : List Nat → Nat
  | [] => 1
  | n :: ns => n * prodList ns

/-- Concatenation of a list of lists (used both to join byte chunks and to
flatten an axis-0 row decomposition of an array). -/
def flat {α : Type} : List (List α) → List α
  | [] => []
  | x :: xs => x ++ flat xs

/-- Elementwise wire encoding of a flat C-order element list: the model of
`data.astype(dtype.str).tobytes()`, with the per-element conversion `enc`
left abstract. -/
def encodeList {α : Type} (enc : α → List Nat) : List α → List Nat
  | [] => []
  | x :: xs => enc x ++ encodeList enc xs

/-- The duplicated length prefix of `dods_encode` for shaped data:
`length.astype('<i4').byteswap().tobytes() * 2` with
`length = np.prod(data.shape)` (a 32-bit truncating cast). -/
def packed_length (shape : List Nat) : List Nat :=
  be32 (prodList shape % 2 ^ 32) ++ be32 (prodList shape % 2 ^ 32)

/-- `dods_encode(data, dtype)` on data with no `shape` attribute
(`is_scalar = True`): the generator yields the empty `packed_length`
followed by the single converted value. -/
def dods_encode_scalar {α : Type} (enc : α → List Nat) (v : α) : List (List Nat) :=
  [[], enc v]

/-- `dods_encode(data, dtype)` on an in-memory `numpy` array of the given
shape, with `elems` its elements in C order: the duplicated length prefix,
then the whole payload in one chunk. -/
def dods_encode_ndarray {α : Type} (enc : α → List Nat) (shape : List Nat)
    (elems : List α) : List (List Nat) :=
  [packed_length shape, encodeList enc elems]

/-- `takeChunks c fuel l` mirrors `range(0, data.shape[0], c)`: successive
groups of `c` axis-0 rows (the last group may be short). `fuel ≥ l.length`
makes the recursion structural. -/
def takeChunks {α : Type} (c : Nat) : Nat → List (List α) → List (List (List α))
  | _, [] => []
  | 0, _ :: _ => []
  | fuel + 1, x :: xs => ((x :: xs).take c) :: takeChunks c fuel ((x :: xs).drop c)

/-- `dods_encode(data, dtype)` on a dask array: the duplicated length
prefix, then one payload chunk per slice `data[x:x+c, ...]` where `c` is
`data.chunks[0][0]` and `x` ranges over `range(0, data.shape[0], c)`.
`rows` is the axis-0 row decomposition of the array (each row a flat
C-order element list of the remaining axes). -/
def dods_encode_dask {α : Type} (enc : α → List Nat) (shape : List Nat)
    (rows : List (List α)) (c : Nat) : List (List Nat) :=
  packed_length shape ::
    (takeChunks c rows.length rows).map (fun g => encodeList enc (flat g))

theorem encodeList_append {α : Type} (enc : α → List Nat) (a b : List α) :
    encodeList enc (a ++ b) = encodeList enc a ++ encodeList enc b := by
  induction a with
  | nil => simp [encodeList]
  | cons x xs ih => simp [encodeList, ih]

theorem flat_append {α : Type} (a b : List (List α)) :
    flat (a ++ b) = flat a ++ flat b := by
  induction a with
  | nil => simp [flat]
  | cons x xs ih => simp [flat, ih]

theorem takeChunks_payload {α : Type} (enc : α → List Nat) (c : Nat) (hc : 0 < c) :
    ∀ (fuel : Nat) (l : List (List α)), l.length ≤ fuel →
      flat ((takeChunks c fuel l).map (fun g => encodeList enc (flat g)))
        = encodeList enc (flat l) := by
  intro fuel
  induction fuel with
  | zero =>
    intro l hl
    have : l = [] := List.length_eq_zero.mp (Nat.le_zero.mp hl)
    subst this
    simp [takeChunks, flat, encodeList]
  | succ fuel ih =>
    intro l hl
    cases l with
    | nil => simp [takeChunks, flat, encodeList]
    | cons x xs =>
      have hdrop : ((x :: xs).drop c).length ≤ fuel := by
        simp only [List.length_drop, List.length_cons]
        simp only [List.length_cons] at hl
        omega
      calc flat ((takeChunks c (fuel + 1) (x :: xs)).map
              (fun g => encodeList enc (flat g)))
          = encodeList enc (flat ((x :: xs).take c))
              ++ flat ((takeChunks c fuel ((x :: xs).drop c)).map
                   (fun g => encodeList enc (flat g))) := by
            simp [takeChunks, flat]
        _ = encodeList enc (flat ((x :: xs).take c))
              ++ encodeList enc (flat ((x :: xs).drop c)) := by
            rw [ih _ hdrop]
        _ = encodeList enc (flat ((x :: xs).take c) ++ flat ((x :: xs).drop c)) := by
            rw [encodeList_append]
        _ = encodeList enc (flat (x :: xs)) := by
            rw [← flat_append, List.take_append_drop]

theorem be32_length (n : Nat) : (be32 n).length = 4 := by
  simp [be32]

/-- **C2.** For every shaped (non-scalar-path) buffer whose element count
fits the 32-bit length field, the byte stream of `dods_encode` starts with
the element count `prodList shape` twice as big-endian 32-bit words, and
the element bytes follow; for a chunked (dask) buffer the first 8 bytes
are the same two words. -/
theorem dods_encode_length_prefix {α : Type} (enc : α → List Nat)
    (shape : List Nat) (elems : List α) (rows : List (List α)) (c : Nat)
    (h : prodList shape < 2 ^ 32) :
    flat (dods_encode_ndarray enc shape elems)
        = be32 (prodList shape) ++ be32 (prodList shape) ++ encodeList enc elems
    ∧ (flat (dods_encode_dask enc shape rows c)).take 8
        = be32 (prodList shape) ++ be32 (prodList shape) := by
  have h2 : prodList shape < 4294967296 := h
  have hmod : prodList shape % 4294967296 = prodList shape := Nat.mod_eq_of_lt h2
  constructor
  · simp [dods_encode_ndarray, flat, packed_length, hmod, List.append_assoc]
  · have hlen : (be32 (prodList shape) ++ be32 (prodList shape)).length = 8 := by
      simp [be32_length]
    calc (flat (dods_encode_dask enc shape rows c)).take 8
        = ((be32 (prodList shape) ++ be32 (prodList shape))
            ++ flat ((takeChunks c rows.length rows).map
                 (fun g => encodeList enc (flat g)))).take 8 := by
          simp [dods_encode_dask, flat, packed_length, hmod, List.append_assoc]
      _ = be32 (prodList shape) ++ be32 (prodList shape) := by
          rw [← hlen, List.take_left]

/-- **C2** (witness). The length-prefix theorem at shape `[2, 3]` with a
one-byte-per-element encoder. -/
theorem dods_encode_length_prefix_witness :
    flat (dods_encode_ndarray (fun v : Nat => [v % 256]) [2, 3] [9, 8, 7, 6, 5, 4])
        = be32 (prodList [2, 3]) ++ be32 (prodList [2, 3])
            ++ encodeList (fun v : Nat => [v % 256]) [9, 8, 7, 6, 5, 4]
    ∧ (flat (dods_encode_dask (fun v : Nat => [v % 256]) [2, 3]
          [[9, 8, 7], [6, 5, 4]] 1)).take 8
        = be32 (prodList [2, 3]) ++ be32 (prodList [2, 3]) :=
  dods_encode_length_prefix (fun v : Nat => [v % 256]) [2, 3]
    [9, 8, 7, 6, 5, 4] [[9, 8, 7], [6, 5, 4]] 1 (by decide)

/-- **C3.** Chunked (dask) emission concatenates to exactly the byte string
of flat in-memory emission of the same data, for any positive native chunk
size `c` along axis 0. -/
theorem dods_encode_chunked_flat_equiv {α : Type} (enc : α → List Nat)
    (shape : List Nat) (rows : List (List α)) (c : Nat) (hc : 0 < c) :
    flat (dods_encode_dask enc shape rows c)
      = flat (dods_encode_ndarray enc shape (flat rows)) := by
  simp only [dods_encode_dask, dods_encode_ndarray, flat, List.append_nil]
  rw [takeChunks_payload enc c hc rows.length rows (Nat.le_refl _)]

/-- **C3** (witness). Chunk size 2 over three rows equals flat emission. -/
theorem dods_encode_chunked_flat_equiv_witness :
    flat (dods_encode_dask (fun v : Nat => [v % 256]) [3, 2]
        [[1, 2], [3, 4], [5, 6]] 2)
      = flat (dods_encode_ndarray (fun v : Nat => [v % 256]) [3, 2]
          (flat [[1, 2], [3, 4], [5, 6]])) :=
  dods_encode_chunked_flat_equiv (fun v : Nat => [v % 256]) [3, 2]
    [[1, 2], [3, 4], [5, 6]] 2 (by decide)

/-- Round `n / 2^k` to the nearest integer, ties to even (IEEE-754 default
rounding, used when an integer is cast to a narrower float significand). -/
def roundNearestEven (n k : Nat) : Nat :=
  let q := n / 2 ^ k
  let r := n % 2 ^ k
  if 2 * r < 2 ^ k then q
  else if 2 ^ k < 2 * r then q + 1
  else if q % 2 = 0 then q else q + 1

def log2Aux : Nat → Nat → Nat
  | 0, _ => 0
  | fuel + 1, n => if n ≤ 1 then 0 else log2Aux fuel (n / 2) + 1

/-- Floor of the base-2 logarithm (structural, fuel-based). -/
def natLog2 (n : Nat) : Nat := log2Aux n n

/-- IEEE-754 binary32 bit pattern of a nonnegative integer, as produced by
the `astype('>f4')` conversion in `dods_encode` when the requested DAP type
is `Float32` (sign bit 0; round to nearest, ties to even; overflow to
infinity). -/
def float32bits (n : Nat) : Nat :=
  if n = 0 then 0
  else
    let e := natLog2 n
    if 128 ≤ e then 0x7F800000
    else
      let m := if e ≤ 23 then n * 2 ^ (23 - e) else roundNearestEven n (e - 23)
      if m = 2 ^ 24 then
        if e = 127 then 0x7F800000 else (e + 128) * 2 ^ 23
      else (e + 127) * 2 ^ 23 + (m - 2 ^ 23)

/-- The 4 big-endian wire bytes of a nonnegative integer converted to the
DAP `Float32` wire form `>f4`. -/
def float32be (n : Nat) : List Nat := be32 (float32bits n)

/-- **C4** (counterexample). The claim treats "no shape attribute" and
"rank-0" as the same scalar criterion, but the code tests only
`hasattr(data, 'shape')`: a rank-0 buffer that does carry a shape
attribute (a 0-d `numpy` array, shape `()`) takes the array path, where
`np.prod(()) = 1` produces a duplicated length prefix of 1 before the
value — so a rank-0 input is emitted *with* a length prefix. -/
theorem dods_encode_rank0_counterexample :
    flat (dods_encode_ndarray float32be [] [0])
      = [0, 0, 0, 1, 0, 0, 0, 1, 0, 0, 0, 0] := by
  decide

/-- **C4** (amended). For every input with no shape attribute,
`dods_encode` emits no length prefix, only the value converted to the wire
form of the requested type; in particular `dods_encode(0, Float32)` yields
exactly the four bytes `00 00 00 00`. (A rank-0 buffer that does have a
shape attribute instead takes the array path and receives the duplicated
length prefix `00 00 00 01 00 00 00 01`.) -/
theorem dods_encode_scalar_no_prefix :
    (∀ (α : Type) (enc : α → List Nat) (v : α),
      flat (dods_encode_scalar enc v) = enc v)
    ∧ flat (dods_encode_scalar float32be 0) = [0, 0, 0, 0]
    ∧ flat (dods_encode_ndarray float32be [] [0])
        = [0, 0, 0, 1] ++ [0, 0, 0, 1] ++ [0, 0, 0, 0] := by
  refine ⟨fun α enc v => ?_, by decide, by decide⟩
  simp [dods_encode_scalar, flat]

/-- The character class `[\d,\W]` of `SLICE_CONSTRAINT_RE`: digits, the
comma, and every non-word character (everything except letters, digits and
underscore — so everything except letters and underscore). -/
def sliceClass (c : Char) : Bool := c.isDigit || !(c.isAlphanum || c = '_')

/-- Matching the remainder of `\[([\d,\W]+)\]$` after an opening `[`: the
rest of the string must end in `]`, with a nonempty body of class
characters before it; the capture group (the body) is returned. -/
def matchTail (r : List Char) : Option (List Char) :=
  if r.getLast? == some ']' && !r.dropLast.isEmpty && r.dropLast.all sliceClass
  then some r.dropLast else none

/-- `re.split(SLICE_CONSTRAINT_RE, constraint)` produces exactly three
parts iff the anchored pattern matches once; this returns the capture
group of the leftmost match of `\[([\d,\W]+)\]$`, scanning positions left
to right as the regex engine does. -/
def findSuffixGroup : List Char → Option (List Char)
  | [] => none
  | c :: rest =>
    if c = '[' then
      match matchTail rest with
      | some g => some g
      | none => findSuffixGroup rest
    else findSuffixGroup rest

/-- `slice_str.replace('][', ',')`: left-to-right, non-overlapping. -/
def replaceBrackets : List Char → List Char
  | ']' :: '[' :: rest => ',' :: replaceBrackets rest
  | c :: rest => c :: replaceBrackets rest
  | [] => []

/-- ASCII whitespace stripped by Python `int(str)`. -/
def isPyWS (c : Char) : Bool :=
  c = ' ' || c = '\t' || c = '\n' || c = '\r' || c = '\x0b' || c = '\x0c'

def natOfDigits (l : List Char) : Nat :=
  l.foldl (fun acc c => acc * 10 + (c.toNat - 48)) 0

def parseDigits (l : List Char) : Option Nat :=
  if !l.isEmpty && l.all Char.isDigit then some (natOfDigits l) else none

def pyStrip (s : List Char) : List Char :=
  ((s.dropWhile isPyWS).reverse.dropWhile isPyWS).reverse

/-- Python `int(str)`: optional surrounding whitespace, an optional single
sign, then at least one digit, else `ValueError` (here `none`). Underscore
digit grouping is not modelled: `_` is a word character, excluded from the
slice-constraint class, so it cannot occur in a slice token. -/
def pyIntCore : List Char → Option Int
  | [] => none
  | c :: rest =>
    if c = '+' then (parseDigits rest).map (fun n => (n : Int))
    else if c = '-' then (parseDigits rest).map (fun n => -(n : Int))
    else (parseDigits (c :: rest)).map (fun n => (n : Int))

def pyInt (s : List Char) : Option Int := pyIntCore (pyStrip s)

/-- Python `c in token` for a single character. -/
def hasChar (c : Char) (l : List Char) : Bool := l.any (fun x => x == c)

/-- Exceptions `parse_slice` can raise. -/
inductive PyError where
  | valueError
  | typeError
deriving DecidableEq

/-- The possible results of `parse_slice`: an integer index, `Ellipsis`,
a `slice(*rng)` object with its argument list, or Python `None` (the
function falling off its end). -/
inductive PySlice where
  | int (n : Int)
  | ellipsis
  | slice (args : List Int)
  | pyNone
deriving DecidableEq

/-- `rng[1] += 1` (DAP's inclusive upper bound becomes Python exclusive). -/
def bumpSecond : List Int → List Int
  | a :: b :: rest => a :: (b + 1) :: rest
  | l => l

/-- `[int(s) for s in token.split(':')]`, failing like `int` does. -/
def traverseInts : List (List Char) → Option (List Int)
  | [] => some []
  | t :: ts =>
    match pyInt t, traverseInts ts with
    | some n, some ns => some (n :: ns)
    | _, _ => none

/-- `parse_slice(token)` from `protocol.py`: try `int(token)`; on
`ValueError`, `:` alone is `Ellipsis`; a token containing `:` is split and
each part converted by `int` (uncaught `ValueError` if a part is not an
integer), the second entry is incremented, and `slice(*rng)` is built
(`TypeError` for more than 3 arguments); any other token falls off the end
of the function and returns `None`. -/
def parse_slice (token : List Char) : Except PyError PySlice :=
  match pyInt token with
  | some n => Except.ok (PySlice.int n)
  | none =>
    if token = [':'] then Except.ok PySlice.ellipsis
    else if hasChar ':' token then
      match traverseInts (pySplit ':' token) with
      | none => Except.error PyError.valueError
      | some rng =>
        if (bumpSecond rng).length ≤ 3 then Except.ok (PySlice.slice (bumpSecond rng))
        else Except.error PyError.typeError
    else Except.ok PySlice.pyNone

/-- `tuple(parse_slice(s) for s in slice_str.split(','))`, propagating the
first exception. -/
def traverseSlices : List (List Char) → Except PyError (List PySlice)
  | [] => Except.ok []
  | t :: ts =>
    match parse_slice t with
    | Except.error e => Except.error e
    | Except.ok s =>
      match traverseSlices ts with
      | Except.error e => Except.error e
      | Except.ok ss => Except.ok (s :: ss)

/-- `parse_slice_constraint(constraint)` from `protocol.py`: split on the
anchored trailing-bracket regex; on a match, replace `][` by `,` in the
capture group, split on commas and parse each token; otherwise the result
is the one-element tuple `(Ellipsis,)`. -/
def parse_slice_constraint (constraint : List Char) : Except PyError (List PySlice) :=
  match findSuffixGroup constraint with
  | some g => traverseSlices (pySplit ',' (replaceBrackets g))
  | none => Except.ok [PySlice.ellipsis]

theorem mem_of_getLast?_eq (l : List Char) (a : Char) (h : l.getLast? = some a) :
    a ∈ l := by
  induction l with
  | nil => simp at h
  | cons x xs ih =>
    cases xs with
    | nil =>
      simp [List.getLast?] at h
      simp [h]
    | cons y ys =>
      rw [List.getLast?_cons_cons] at h
      exact List.mem_cons_of_mem x (ih h)

theorem mem_dropWhile_of_mem {p : Char → Bool} (c : Char) (hc : p c = false) :
    ∀ l : List Char, c ∈ l → c ∈ l.dropWhile p := by
  intro l
  induction l with
  | nil => intro h; exact absurd h (List.not_mem_nil c)
  | cons a as ih =>
    intro h
    rw [List.dropWhile_cons]
    by_cases ha : p a = true
    · rw [if_pos ha]
      rcases List.mem_cons.mp h with rfl | hm
      · exact absurd ha (by simp [hc])
      · exact ih hm
    · rw [if_neg ha]
      exact h

theorem mem_pyStrip (c : Char) (s : List Char) (hc : isPyWS c = false) (h : c ∈ s) :
    c ∈ pyStrip s := by
  unfold pyStrip
  rw [List.mem_reverse]
  refine mem_dropWhile_of_mem c hc _ ?_
  rw [List.mem_reverse]
  exact mem_dropWhile_of_mem c hc s h

theorem parseDigits_none_of_mem (l : List Char) (c : Char) (hc : c ∈ l)
    (hd : c.isDigit = false) : parseDigits l = none := by
  have hall : l.all Char.isDigit = false := by
    rw [Bool.eq_false_iff]
    intro hal
    have := List.all_eq_true.mp hal c hc
    simp [hd] at this
  simp [parseDigits, hall]

theorem pyInt_none_of_colon (t : List Char) (h : hasChar ':' t = true) :
    pyInt t = none := by
  have hmem : ':' ∈ t := by
    rcases List.any_eq_true.mp h with ⟨x, hx, he⟩
    rcases eq_of_beq he with rfl
    exact hx
  have hstrip : ':' ∈ pyStrip t := mem_pyStrip ':' t (by decide) hmem
  have hdig : (':' : Char).isDigit = false := by decide
  unfold pyInt
  rcases hps : pyStrip t with _ | ⟨c, rest⟩
  · rw [hps] at hstrip; exact absurd hstrip (List.not_mem_nil _)
  · rw [hps] at hstrip
    by_cases hplus : c = '+'
    · subst hplus
      have hmr : ':' ∈ rest := by
        rcases List.mem_cons.mp hstrip with he | hm
        · exact absurd he (by decide)
        · exact hm
      simp [pyIntCore, parseDigits_none_of_mem rest ':' hmr hdig]
    · by_cases hminus : c = '-'
      · subst hminus
        have hmr : ':' ∈ rest := by
          rcases List.mem_cons.mp hstrip with he | hm
          · exact absurd he (by decide)
          · exact hm
        simp [pyIntCore, hplus, parseDigits_none_of_mem rest ':' hmr hdig]
      · simp [pyIntCore, hplus, hminus,
          parseDigits_none_of_mem (c :: rest) ':' hstrip hdig]

theorem pySplit_no_sep (sep : Char) (t : List Char) (h : hasChar sep t = false) :
    pySplit sep t = [t] := by
  induction t with
  | nil => rfl
  | cons c rest ih =>
    simp only [hasChar, List.any_cons, Bool.or_eq_false_iff] at h
    have hc : ¬ c = sep := by
      intro he
      subst he
      simp at h
    have ihr := ih h.2
    simp only [pySplit, if_neg hc, ihr]

theorem pySplit_append_sep (sep : Char) (t1 t2 : List Char)
    (h : hasChar sep t1 = false) :
    pySplit sep (t1 ++ sep :: t2) = t1 :: pySplit sep t2 := by
  induction t1 with
  | nil => simp [pySplit]
  | cons c rest ih =>
    simp only [hasChar, List.any_cons, Bool.or_eq_false_iff] at h
    have hc : ¬ c = sep := by
      intro he
      subst he
      simp at h
    have ihr := ih h.2
    have hra : rest.append (sep :: t2) = rest ++ sep :: t2 := rfl
    simp only [List.cons_append, pySplit, if_neg hc, hra, ihr]

theorem findSuffixGroup_none (s : List Char) (h : hasChar ']' s = false) :
    findSuffixGroup s = none := by
  induction s with
  | nil => rfl
  | cons c rest ih =>
    simp only [hasChar, List.any_cons, Bool.or_eq_false_iff] at h
    have ihr := ih h.2
    have hnotmem : ']' ∉ rest := by
      intro hm
      have : rest.any (fun x => x == ']') = true :=
        List.any_eq_true.mpr ⟨']', hm, by decide⟩
      rw [h.2] at this
      exact Bool.false_ne_true this
    have hlast : (rest.getLast? == some ']') = false := by
      rw [beq_eq_false_iff_ne]
      intro hg
      exact hnotmem (mem_of_getLast?_eq rest ']' hg)
    have hmt : matchTail rest = none := by
      simp [matchTail, hlast]
    by_cases hc : c = '['
    · simp [findSuffixGroup, hc, hmt, ihr]
    · simp [findSuffixGroup, hc, ihr]

theorem pyInt_nil : pyInt [] = none := rfl

/-- Shared helper: `parse_slice` on a token `a:b` built from two integer
tokens yields `slice(a, b + 1)` — with no monotonicity check on the pair. -/
theorem parse_slice_range (t1 t2 : List Char) (a b : Int)
    (h1 : pyInt t1 = some a) (h2 : pyInt t2 = some b)
    (hc1 : hasChar ':' t1 = false) (hc2 : hasChar ':' t2 = false) :
    parse_slice (t1 ++ ':' :: t2) = Except.ok (PySlice.slice [a, b + 1]) := by
  have ht1 : t1 ≠ [] := by
    rintro rfl
    rw [pyInt_nil] at h1
    exact Option.noConfusion h1
  have hfull : pyInt (t1 ++ ':' :: t2) = none :=
    pyInt_none_of_colon _ (by simp [hasChar])
  have hne : t1 ++ ':' :: t2 ≠ [':'] := by
    cases t1 with
    | nil => exact absurd rfl ht1
    | cons x xs =>
      intro he
      simp only [List.cons_append, List.cons.injEq] at he
      exact absurd he.2 (by simp)
  have hcc : hasChar ':' (t1 ++ ':' :: t2) = true := by simp [hasChar]
  have hsplit : pySplit ':' (t1 ++ ':' :: t2) = [t1, t2] := by
    rw [pySplit_append_sep ':' t1 t2 hc1, pySplit_no_sep ':' t2 hc2]
  unfold parse_slice
  rw [hfull, if_neg hne, if_pos hcc, hsplit]
  simp [traverseInts, h1, h2, bumpSecond]

/-- **C5** (counterexample). A bracket group `[]` is *not* mapped to the
whole-axis selector when it occurs in a matched bracket suffix: in
`"[0][]"` the second group parses to Python `None` (a `newaxis`-style
selector), not to `Ellipsis`. -/
theorem parse_slice_constraint_empty_group_counterexample :
    parse_slice_constraint "[0][]".data = Except.ok [PySlice.int 0, PySlice.pyNone]
    ∧ PySlice.pyNone ≠ PySlice.ellipsis :=
  ⟨rfl, by decide⟩

/-- **C5** (amended). The slice parser maps `[n]` to the integer `n`,
`[a:b]` to `slice(a, b+1)`, and `[:]` to the whole-axis selector; a
constraint with no bracket suffix yields the single-element tuple
`(all,)`. The constraint `"[]"` alone also yields `(all,)`, but only
because the suffix regex requires a nonempty group and fails to match —
an empty bracket group *inside* a matched suffix parses to Python `None`
instead of the whole-axis selector. Concretely,
`parse("[0][:][:][4:7]") = (0, all, all, slice(4, 8))` and
`parse("[]") = (all,)`. -/
theorem parse_slice_constraint_mapping :
    (∀ (t : List Char) (n : Int), pyInt t = some n →
        parse_slice t = Except.ok (PySlice.int n))
    ∧ parse_slice [':'] = Except.ok PySlice.ellipsis
    ∧ (∀ (t1 t2 : List Char) (a b : Int), pyInt t1 = some a → pyInt t2 = some b →
        hasChar ':' t1 = false → hasChar ':' t2 = false →
        parse_slice (t1 ++ ':' :: t2) = Except.ok (PySlice.slice [a, b + 1]))
    ∧ parse_slice [] = Except.ok PySlice.pyNone
    ∧ parse_slice_constraint "[]".data = Except.ok [PySlice.ellipsis]
    ∧ (∀ s : List Char, hasChar ']' s = false →
        parse_slice_constraint s = Except.ok [PySlice.ellipsis])
    ∧ parse_slice_constraint "[0][:][:][4:7]".data
        = Except.ok [PySlice.int 0, PySlice.ellipsis, PySlice.ellipsis,
            PySlice.slice [4, 8]] := by
  refine ⟨?_, rfl, parse_slice_range, rfl, rfl, ?_, rfl⟩
  · intro t n h
    unfold parse_slice
    rw [h]
  · intro s h
    unfold parse_slice_constraint
    rw [findSuffixGroup_none s h]

/-- **C5** (witness). The range rule of the amended theorem at the
concrete token `4:7`. -/
theorem parse_slice_constraint_mapping_witness :
    parse_slice (['4'] ++ ':' :: ['7']) = Except.ok (PySlice.slice [4, 8]) :=
  parse_slice_constraint_mapping.2.2.1 ['4'] ['7'] 4 7 rfl rfl rfl rfl

/-- **C6** (counterexample). No `BadSlice` error exists in the code: the
non-monotone range `7:4` is parsed to the selector `slice(7, 5)` without
complaint, and a bracket body that is neither `:`, an integer, nor an
`a:b` pair (here `%`) makes `parse_slice` return Python `None` rather
than fail. -/
theorem parse_slice_no_badslice_counterexample :
    parse_slice "7:4".data = Except.ok (PySlice.slice [7, 5])
    ∧ parse_slice ['%'] = Except.ok PySlice.pyNone :=
  ⟨rfl, rfl⟩

/-- **C6** (amended). A bracket body that is neither `:`, an integer, nor
a colon-separated list of integers makes `parse_slice` return Python
`None` (no error, no selector); a range `a:b` with `a > b` returns
`slice(a, b+1)` without any error; a colon-separated body with a
non-integer part raises an uncaught `ValueError` (not a `BadSlice`). -/
theorem parse_slice_error_behaviour :
    (∀ t : List Char, pyInt t = none → hasChar ':' t = false →
        parse_slice t = Except.ok PySlice.pyNone)
    ∧ (∀ (t1 t2 : List Char) (a b : Int), pyInt t1 = some a → pyInt t2 = some b →
        hasChar ':' t1 = false → hasChar ':' t2 = false → b < a →
        parse_slice (t1 ++ ':' :: t2) = Except.ok (PySlice.slice [a, b + 1]))
    ∧ (∀ t : List Char, pyInt t = none → t ≠ [':'] → hasChar ':' t = true →
        traverseInts (pySplit ':' t) = none →
        parse_slice t = Except.error PyError.valueError) := by
  refine ⟨?_, ?_, ?_⟩
  · intro t h hc
    have hne : t ≠ [':'] := by
      rintro rfl
      simp [hasChar] at hc
    have hcf : ¬ hasChar ':' t = true := by
      rw [hc]
      exact Bool.false_ne_true
    unfold parse_slice
    rw [h, if_neg hne, if_neg hcf]
  · intro t1 t2 a b h1 h2 hc1 hc2 _
    exact parse_slice_range t1 t2 a b h1 h2 hc1 hc2
  · intro t h hne hc htr
    have hct : hasChar ':' t = true := hc
    unfold parse_slice
    rw [h, if_neg hne, if_pos hct, htr]

/-- **C6** (witness). The `None` rule of the amended theorem at the
concrete token `-` (a bare sign is not an integer). -/
theorem parse_slice_error_behaviour_witness :
    parse_slice ['-'] = Except.ok PySlice.pyNone :=
  parse_slice_error_behaviour.1 ['-'] rfl rfl

/-- The platform (`numpy`) element types relevant to the lookup. -/
inductive NpType where
  | i8 | u8 | i16 | u16 | i32 | u32 | i64 | u64 | f16 | f32 | f64 | pystr
deriving DecidableEq

/-- The DAP atomic types defined in `protocol.py`. -/
inductive DAPType where
  | Byte | Int16 | UInt16 | Int32 | UInt32 | Float32 | Float64 | String | URL
deriving DecidableEq

/-- The `dtype` class attribute of each `DAPAtom` subclass
(`Byte.dtype = np.ubyte`, ..., `String.dtype = np.str`). -/
def dapDtype : DAPType → NpType
  | DAPType.Byte => NpType.u8
  | DAPType.Int16 => NpType.i16
  | DAPType.UInt16 => NpType.u16
  | DAPType.Int32 => NpType.i32
  | DAPType.UInt32 => NpType.u32
  | DAPType.Float32 => NpType.f32
  | DAPType.Float64 => NpType.f64
  | DAPType.String => NpType.pystr
  | DAPType.URL => NpType.pystr

/-- `DAPAtom.subclasses()` = `cls.__subclasses__()`: the *direct*
subclasses of `DAPAtom` in definition order. `URL` subclasses `String`,
not `DAPAtom`, so it is absent. -/
def subclasses : List DAPType :=
  [DAPType.Byte, DAPType.Int16, DAPType.UInt16, DAPType.Int32, DAPType.UInt32,
   DAPType.Float32, DAPType.Float64, DAPType.String]

/-- `DAPAtom.type_from_np(nptype)` from `protocol.py`: four special cases,
then a scan of the registered subclasses for `subclass.dtype == nptype`;
a Python function with no matching branch returns `None`. -/
def type_from_np (nptype : NpType) : Option DAPType :=
  if nptype = NpType.i8 then some DAPType.Int16
  else if nptype = NpType.u8 then some DAPType.Byte
  else if nptype = NpType.i64 then some DAPType.Int32
  else if nptype = NpType.u64 then some DAPType.UInt32
  else subclasses.find? (fun subclass => dapDtype subclass == nptype)

/-- **C8** (counterexample). For a platform type with no registered match
(here `float16`) the lookup does not fail with an `UnsupportedType` error
— no such error exists in the code — it returns Python `None`. -/
theorem type_from_np_no_error_counterexample :
    type_from_np NpType.f16 = none := by
  decide

/-- **C8** (amended). The lookup maps `i8` to `Int16`, `u8` to `Byte`,
`i64` to `Int32` and `u64` to `UInt32`; any other platform type is looked
up as the first registered DAP atomic type whose native `dtype` equals it
(same kind, width and signedness); for a platform type with no match the
lookup returns `None` instead of raising an error. -/
theorem type_from_np_characterization :
    type_from_np NpType.i8 = some DAPType.Int16
    ∧ type_from_np NpType.u8 = some DAPType.Byte
    ∧ type_from_np NpType.i64 = some DAPType.Int32
    ∧ type_from_np NpType.u64 = some DAPType.UInt32
    ∧ (∀ t : NpType, t ≠ NpType.i8 → t ≠ NpType.u8 → t ≠ NpType.i64 →
        t ≠ NpType.u64 →
        type_from_np t = subclasses.find? (fun subclass => dapDtype subclass == t))
    ∧ type_from_np NpType.f16 = none := by
  refine ⟨rfl, rfl, rfl, rfl, ?_, by decide⟩
  intro t h1 h2 h3 h4
  simp [type_from_np, h1, h2, h3, h4]

/-- **C8** (witness). The general lookup rule of the amended theorem at
the non-special platform type `float32`. -/
theorem type_from_np_characterization_witness :
    type_from_np NpType.f32
      = subclasses.find? (fun subclass => dapDtype subclass == NpType.f32) :=
  type_from_np_characterization.2.2.2.2.1 NpType.f32
    (by decide) (by decide) (by decide) (by decide)

/-- The node kinds (Python classes) relevant to `indent` / `data_path`:
both properties test only `__class__.__name__ == 'Dataset'`, and
`SequenceInstance` overrides `data_path`. -/
inductive NodeKind where
  | dataset
  | structureKind
  | sequenceKind
  | sequenceInstance
  | atomKind
  | arrayKind
  | gridKind
  | attributeKind
deriving DecidableEq

/-- A DAP object together with its parent chain: `root` is a node whose
`parent` is `None`, `child` a node with an attached parent. -/
inductive Node where
  | root (kind : NodeKind) (name : List Char)
  | child (kind : NodeKind) (name : List Char) (parent : Node)

def kindOf : Node → NodeKind
  | Node.root k _ => k
  | Node.child k _ _ => k

def nameOf : Node → List Char
  | Node.root _ name => name
  | Node.child _ name _ => name

/-- `INDENT = '    '` from `protocol.py`. -/
def INDENT : List Char := [' ', ' ', ' ', ' ']

/-- The `indent` property: the empty string on a `Dataset`, otherwise
`self.parent.indent + INDENT`; accessing `indent` on a parentless
non-`Dataset` node raises `AttributeError` (modelled as `none`). -/
def indent : Node → Option (List Char)
  | Node.root k _ => if k = NodeKind.dataset then some [] else none
  | Node.child k _ p =>
    if k = NodeKind.dataset then some []
    else (indent p).map (fun s => s ++ INDENT)

/-- The `data_path` property: the empty string on a `Dataset`; `name` when
the parent is a `Dataset`; otherwise `'.'.join([parent.data_path, name])`;
`SequenceInstance` overrides it with `parent.data_path`. A parentless
non-`Dataset` node raises `AttributeError` (modelled as `none`). -/
def data_path : Node → Option (List Char)
  | Node.root k _ => if k = NodeKind.dataset then some [] else none
  | Node.child k name p =>
    if k = NodeKind.sequenceInstance then data_path p
    else if k = NodeKind.dataset then some []
    else if kindOf p = NodeKind.dataset then some name
    else (data_path p).map (fun pp => pp ++ '.' :: name)

/-- Well-formedness of a parent chain: every attached node has a nonempty
name that does not begin with `.`, and no `SequenceInstance` hangs below a
parent whose `data_path` is empty. -/
def goodTree : Node → Bool
  | Node.root _ _ => true
  | Node.child k name p =>
    goodTree p && !name.isEmpty && !(name.head? == some '.')
      && (!(k == NodeKind.sequenceInstance) || !(data_path p == some []))

theorem data_path_no_dot_aux :
    ∀ n : Node, goodTree n = true → ∀ s : List Char, data_path n = some s →
      s.head? ≠ some '.' ∧ (s = [] → kindOf n = NodeKind.dataset) := by
  intro n
  induction n with
  | root k name =>
    intro _ s hs
    by_cases hk : k = NodeKind.dataset
    · rw [data_path, if_pos hk] at hs
      rcases Option.some_injective _ hs with rfl
      exact ⟨by simp, fun _ => by simp [kindOf, hk]⟩
    · rw [data_path, if_neg hk] at hs
      exact Option.noConfusion hs
  | child k name p ih =>
    intro hg s hs
    simp only [goodTree, Bool.and_eq_true] at hg
    obtain ⟨⟨⟨hp, hne⟩, hd⟩, hseq⟩ := hg
    have hname_ne : name ≠ [] := by
      intro he
      subst he
      simp at hne
    have hname_hd : name.head? ≠ some '.' := by
      intro he
      rw [he] at hd
      simp at hd
    by_cases hks : k = NodeKind.sequenceInstance
    · subst hks
      rw [data_path, if_pos rfl] at hs
      obtain ⟨hhead, -⟩ := ih hp s hs
      have hpne : ¬ data_path p == some [] := by
        simpa [hseq] using hseq
      refine ⟨hhead, fun hse => ?_⟩
      subst hse
      exact absurd hs (fun hcon => hpne (by rw [hcon]; rfl))
    · by_cases hkd : k = NodeKind.dataset
      · rw [data_path, if_neg hks, if_pos hkd] at hs
        rcases Option.some_injective _ hs with rfl
        exact ⟨by simp, fun _ => by simp [kindOf, hkd]⟩
      · by_cases hpd : kindOf p = NodeKind.dataset
        · rw [data_path, if_neg hks, if_neg hkd, if_pos hpd] at hs
          rcases Option.some_injective _ hs with rfl
          exact ⟨hname_hd, fun hse => absurd hse hname_ne⟩
        · rw [data_path, if_neg hks, if_neg hkd, if_neg hpd] at hs
          rcases Option.map_eq_some'.mp hs with ⟨pp, hpp, hsv⟩
          obtain ⟨hh, hemp⟩ := ih hp pp hpp
          have hppne : pp ≠ [] := fun he => hpd (hemp he)
          subst hsv
          cases pp with
          | nil => exact absurd rfl hppne
          | cons x xs =>
            refine ⟨?_, fun hse => ?_⟩
            · simpa using hh
            · exact absurd hse (by simp)

/-- **C9** (counterexample). `data_path` *can* begin with a dot: names
default to the empty string (`DAPObject.__init__(name='')`), and for a
Dataset → Structure(name `''`) → child(name `'x'`) chain the child's
`data_path` is `'.'.join(['', 'x']) = ".x"`. -/
theorem data_path_leading_dot_counterexample :
    data_path (Node.child NodeKind.atomKind ['x']
        (Node.child NodeKind.structureKind []
          (Node.root NodeKind.dataset ['d'])))
      = some ['.', 'x']
    ∧ (['.', 'x'] : List Char).head? = some '.' :=
  ⟨rfl, rfl⟩

/-- **C9** (amended). `indent` is empty on a `Dataset` and otherwise
`indent(parent) + four spaces`; `data_path` is empty on a `Dataset`, the
node's name when the parent is a `Dataset`, and otherwise
`data_path(parent) + '.' + name`; a `SequenceInstance`'s `data_path`
equals its parent's. `data_path` never begins with a dot *provided* every
attached node's name is nonempty and does not begin with `'.'`, and no
`SequenceInstance` hangs below a parent with empty `data_path` (without
these provisos the dot-free property fails, see the counterexample). -/
theorem indent_data_path_characterization :
    (∀ nm : List Char, indent (Node.root NodeKind.dataset nm) = some [])
    ∧ (∀ (k : NodeKind) (nm : List Char) (p : Node),
        indent (Node.child k nm p)
          = if k = NodeKind.dataset then some []
            else (indent p).map (fun s => s ++ INDENT))
    ∧ (∀ nm : List Char, data_path (Node.root NodeKind.dataset nm) = some [])
    ∧ (∀ (nm : List Char) (p : Node), kindOf p = NodeKind.dataset →
        ∀ k : NodeKind, k ≠ NodeKind.dataset → k ≠ NodeKind.sequenceInstance →
        data_path (Node.child k nm p) = some nm)
    ∧ (∀ (nm : List Char) (p : Node), kindOf p ≠ NodeKind.dataset →
        ∀ k : NodeKind, k ≠ NodeKind.dataset → k ≠ NodeKind.sequenceInstance →
        data_path (Node.child k nm p)
          = (data_path p).map (fun pp => pp ++ '.' :: nm))
    ∧ (∀ (nm : List Char) (p : Node),
        data_path (Node.child NodeKind.sequenceInstance nm p) = data_path p)
    ∧ (∀ n : Node, goodTree n = true → ∀ s : List Char,
        data_path n = some s → s.head? ≠ some '.') := by
  refine ⟨?_, ?_, ?_, ?_, ?_, ?_, ?_⟩
  · intro nm
    simp [indent]
  · intro k nm p
    by_cases hk : k = NodeKind.dataset
    · simp [indent, hk]
    · simp [indent, hk]
  · intro nm
    simp [data_path]
  · intro nm p hp k hk hks
    simp [data_path, hk, hks, hp]
  · intro nm p hp k hk hks
    simp [data_path, hk, hks, hp]
  · intro nm p
    simp [data_path]
  · exact fun n hg s hs => (data_path_no_dot_aux n hg s hs).1

/-- **C9** (witness). The parent-is-Dataset rule of the amended theorem at
a concrete atom under the root dataset. -/
theorem indent_data_path_characterization_witness :
    data_path (Node.child NodeKind.atomKind ['x'] (Node.root NodeKind.dataset ['d']))
      = some ['x'] :=
  indent_data_path_characterization.2.2.2.1 ['x'] (Node.root NodeKind.dataset ['d'])
    rfl NodeKind.atomKind (by decide) (by decide)

/-- A `Grid` dimension: a 1-D coordinate array with its DAP type. The
array library is abstract here (spec §1 treats it as an opaque typed
buffer), so `data` lives in an arbitrary buffer type. -/
structure DimNode (Buf : Type) where
  data : Buf
  dtype : DAPType

/-- A `Grid` (`DAPDataObject`) node: its `data_path`, primary buffer,
declared DAP type, and optional dimension list in declaration order. -/
structure GridNode (Buf : Type) where
  data_path : String
  data : Buf
  dtype : DAPType
  dimensions : Option (List (DimNode Buf))

/-- The `for i, dim in enumerate(self.dimensions)` loop of
`DAPDataObject.dods_data`: each dimension's buffer is indexed with
`slices[i] if i < len(slices) else ...` and encoded. -/
def dimsPayload {Buf : Type} (np1 : Buf → PySlice → Buf)
    (xdr : Buf → DAPType → List (List Nat)) (slices : List PySlice) :
    Nat → List (DimNode Buf) → List (List Nat)
  | _, [] => []
  | i, d :: ds =>
    xdr (np1 d.data (slices.getD i PySlice.ellipsis)) d.dtype
      ++ dimsPayload np1 xdr slices (i + 1) ds

/-- `DAPDataObject.dods_data(constraint)` (used by `Grid`): when the node
meets the constraint, parse the slice constraint (propagating any
exception), yield the XDR chunks of the sliced primary buffer, then those
of each dimension in declaration order; otherwise yield nothing.
`npT`/`np1` are the abstract `numpy` tuple- and single-selector indexing
operations and `xdr` the abstract per-buffer `dods_encode`. -/
def dods_data_grid {Buf : Type} (npT : Buf → List PySlice → Buf)
    (np1 : Buf → PySlice → Buf) (xdr : Buf → DAPType → List (List Nat))
    (g : GridNode Buf) (constraint : String) : Except PyError (List (List Nat)) :=
  if meets_constraint constraint g.data_path then
    match parse_slice_constraint constraint.data with
    | Except.error e => Except.error e
    | Except.ok slices =>
      Except.ok (xdr (npT g.data slices) g.dtype ++
        (match g.dimensions with
         | none => []
         | some dims => dimsPayload np1 xdr slices 0 dims))
  else Except.ok []

theorem dimsPayload_eq_enumFrom {Buf : Type} (np1 : Buf → PySlice → Buf)
    (xdr : Buf → DAPType → List (List Nat)) (slices : List PySlice) :
    ∀ (ds : List (DimNode Buf)) (i : Nat),
      dimsPayload np1 xdr slices i ds
        = flat ((List.enumFrom i ds).map (fun pr =>
            xdr (np1 pr.2.data (slices.getD pr.1 PySlice.ellipsis)) pr.2.dtype)) := by
  intro ds
  induction ds with
  | nil => intro i; rfl
  | cons d ds ih =>
    intro i
    simp [dimsPayload, List.enumFrom, flat, ih (i + 1)]

/-- **C7.** For every Grid node that meets the constraint (and whose parse
succeeds), `dods_data` yields exactly the sliced primary buffer's XDR
chunks first, then each dimension's sliced XDR chunks in declaration
order, where dimension axis `i` uses `slices[i]` if the constraint
supplied it and the whole-axis selector `...` otherwise. -/
theorem grid_dods_data_order {Buf : Type} (npT : Buf → List PySlice → Buf)
    (np1 : Buf → PySlice → Buf) (xdr : Buf → DAPType → List (List Nat))
    (g : GridNode Buf) (constraint : String) (ds : List (DimNode Buf))
    (slices : List PySlice)
    (hmeets : meets_constraint constraint g.data_path = true)
    (hdims : g.dimensions = some ds)
    (hparse : parse_slice_constraint constraint.data = Except.ok slices) :
    dods_data_grid npT np1 xdr g constraint
      = Except.ok (xdr (npT g.data slices) g.dtype
          ++ flat ((List.enumFrom 0 ds).map (fun pr =>
              xdr (np1 pr.2.data (slices.getD pr.1 PySlice.ellipsis)) pr.2.dtype))) := by
  simp [dods_data_grid, hmeets, hparse, hdims, dimsPayload_eq_enumFrom]

/-- **C7** (witness). The ordering theorem at a concrete one-dimension
grid with the empty constraint: primary payload first, then the
dimension's. -/
theorem grid_dods_data_order_witness :
    dods_data_grid (fun (b : Nat) (_ : List PySlice) => b)
        (fun (b : Nat) (_ : PySlice) => b) (fun b _ => [[b]])
        { data_path := "z", data := 5, dtype := DAPType.Int32,
          dimensions := some [{ data := 7, dtype := DAPType.Int16 }] } ""
      = Except.ok [[5], [7]] :=
  grid_dods_data_order _ _ _ _ "" [{ data := 7, dtype := DAPType.Int16 }]
    [PySlice.ellipsis] rfl rfl rfl

/-- `'{}'.format(dtype_instance)` resolves to the class name via
`DAPAtom.__str__`. -/
def dapTypeName : DAPType → List Char
  | DAPType.Byte => "Byte".data
  | DAPType.Int16 => "Int16".data
  | DAPType.UInt16 => "UInt16".data
  | DAPType.Int32 => "Int32".data
  | DAPType.UInt32 => "UInt32".data
  | DAPType.Float32 => "Float32".data
  | DAPType.Float64 => "Float64".data
  | DAPType.String => "String".data
  | DAPType.URL => "URL".data

/-- `Attribute.das(constraint)` from `protocol.py`: one line
`'{indent}{dtype} {name} {d}{value}{d};\n'` with `d = '"'` exactly for
`String`-typed attributes; the `constraint` argument is never consulted.
The attribute node `self` supplies `indent` (through its parent chain,
`none` modelling the `AttributeError` of a detached node) and `name`. -/
def attribute_das (self : Node) (value : List Char) (dtype : DAPType)
    (constraint : String) : Option (List (List Char)) :=
  (indent self).map (fun ind =>
    let d : List Char := if dtype = DAPType.String then ['"'] else []
    [ind ++ dapTypeName dtype ++ ' ' :: nameOf self ++ ' ' :: (d ++ value ++ d)
      ++ [';', '\n']])

/-- **C10.** `Attribute.das` yields exactly the same output for every pair
of constraint strings: the DAS line is emitted unconditionally, with no
`meets_constraint` check against the attribute's own data path — shown
also on a concrete attribute whose data path fails a constraint that the
emission ignores. -/
theorem attribute_das_constraint_independent :
    (∀ (self : Node) (value : List Char) (dtype : DAPType) (c1 c2 : String),
        attribute_das self value dtype c1 = attribute_das self value dtype c2)
    ∧ meets_constraint "other" "a.units" = false
    ∧ data_path (Node.child NodeKind.attributeKind "units".data
          (Node.child NodeKind.structureKind "a".data
            (Node.root NodeKind.dataset "d".data)))
        = some "a.units".data
    ∧ attribute_das (Node.child NodeKind.attributeKind "units".data
          (Node.child NodeKind.structureKind "a".data
            (Node.root NodeKind.dataset "d".data)))
        "second".data DAPType.String "other"
        = some ["        String units \"second\";\n".data] := by
  refine ⟨fun self value dtype c1 c2 => rfl, by decide, rfl, rfl⟩
